import Mathlib

/-!
# Shallow embedding of `maws/utils.py`

This file embeds the asset-resolution utilities of the `maws` repository:
the filesystem-facing helpers `validate_file`, `_check_hash`,
`download_from_url`, `extract_archive`, `get_asset_local_path`, and the
global inference-mode stack (`start_inference_mode` / `reset_inference_mode`).

Modelling conventions:
* Python strings (paths, URLs, hash names, messages) are `List Char`.
* The filesystem is a newest-first association list from paths to inodes;
  an inode is a regular file with byte contents, or a directory.
* External collaborators are parameters: `hashFn` stands for the hexdigest
  hashlib computes for a given algorithm name over a byte stream, and
  `dlContent` stands for the bytes the download manager
  (`_DATASET_DOWNLOAD_MANAGER.get_local_path`) writes for a given URL.
* I/O effects that the claims talk about (files opened for reading, bytes
  read, lock files acquired, URLs transferred) are recorded explicitly in
  the results.
* `os.path` functions are modelled on '/'-separated paths without the
  normalisation corner cases (repeated or trailing separators).
-/

namespace Maws

/-- Python strings, modelled as lists of characters. -/
abbrev PyStr := List Char

/-- `s.endswith(suffix)`. -/
def pyEndsWith (s suffix : PyStr) : Bool := suffix.isSuffixOf s

/-- An on-disk entry: a regular file with its byte contents, or a directory. -/
inductive Inode where
  | file (data : List Nat) : Inode
  | dir : Inode
deriving DecidableEq

/-- The filesystem: newest-first association list from paths to inodes. -/
abbrev FS := List (PyStr × Inode)

/-- Look up a path; the most recent write wins. -/
def fsGet (fs : FS) (p : PyStr) : Option Inode :=
  match fs with
  | [] => none
  | (q, n) :: rest => if q = p then some n else fsGet rest p

/-- Create or overwrite the entry at `p`. -/
def fsSet (fs : FS) (p : PyStr) (n : Inode) : FS := (p, n) :: fs

/-- `os.path.exists`. -/
def fsExists (fs : FS) (p : PyStr) : Bool := (fsGet fs p).isSome

/-- `os.path.isfile`. -/
def fsIsFile (fs : FS) (p : PyStr) : Bool :=
  match fsGet fs p with
  | some (Inode.file _) => true
  | _ => false

/-- `os.path.basename`: the part after the last '/'. -/
def pyBasename (p : PyStr) : PyStr := (p.reverse.takeWhile (· ≠ '/')).reverse

/-- `os.path.dirname`: the part before the last '/' (empty when there is none). -/
def pyDirname (p : PyStr) : PyStr := ((p.reverse.dropWhile (· ≠ '/')).drop 1).reverse

/-- `os.path.split p = (dirname p, basename p)`. -/
def pySplit (p : PyStr) : PyStr × PyStr := (pyDirname p, pyBasename p)

/-- `os.path.join a b` for a single join step. -/
def pyJoin (a b : PyStr) : PyStr :=
  if b.head? = some '/' then b
  else if a = [] then b
  else if a.getLast? = some '/' then a ++ b
  else a ++ '/' :: b

/-- `os.path.abspath` relative to a current working directory `cwd`
(no `normpath` normalisation). -/
def pyAbspath (cwd p : PyStr) : PyStr :=
  if p.head? = some '/' then p else pyJoin cwd p

/-!
## Chunked reads

`read(sz)` on a stream returns successive blocks of at most `sz` bytes, then
the empty block at end of file.  `chunksOfFuel` lists the nonempty blocks;
the fuel (initialised to the stream length, which suffices because each step
consumes at least one byte) makes the recursion structural.
-/

/-- The nonempty blocks `read(max 1 sz)` returns before end of file. -/
def chunksOfFuel (sz : Nat) : Nat → List Nat → List (List Nat)
  | _, [] => []
  | 0, _ :: _ => []
  | fuel + 1, b :: bs =>
      (b :: bs).take (max 1 sz) :: chunksOfFuel sz fuel ((b :: bs).drop (max 1 sz))

/-- All blocks a stream holding `bs` yields to `read(sz)` calls, for the
block sizes used in the source (`65536` and `1024 ** 2`, both positive). -/
def chunksOf (sz : Nat) (bs : List Nat) : List (List Nat) :=
  chunksOfFuel sz bs.length bs

/-!
## `extract_archive`
-/

/-- One member of a tar or zip archive, in archive order. -/
structure Entry where
  name : PyStr
  node : Inode
deriving DecidableEq

/-- `TarInfo.isfile()` / the zip member being a regular file. -/
def Entry.isfile (e : Entry) : Bool :=
  match e.node with
  | Inode.file _ => true
  | Inode.dir => false

/-- What the archive file at `from_path` decodes to: its member list
(tar or zip), the decompressed bytes of a single-member gzip stream, and
whether `zipfile.is_zipfile` accepts it. -/
structure ArchiveData where
  entries : List Entry
  gzBytes : List Nat
  isZip : Bool
deriving DecidableEq

/-- Errors `extract_archive` raises. -/
inductive ExtractError where
  | assertionError (p : PyStr) : ExtractError
  | notImplementedError (msg : PyStr) : ExtractError
deriving DecidableEq

/-- The message of the unsupported-format error, verbatim from the source. -/
def unsupportedMsg : PyStr :=
  "We currently only support tar.gz, .tgz, .gz and zip achives.".toList

/-- The tar loop: regular-file members are recorded in `files` and skipped
when their target path exists and `overwrite` is false; non-file members are
extracted unconditionally and not recorded. -/
def tarLoop (to_path : PyStr) (overwrite : Bool) :
    List Entry → FS → FS × List PyStr
  | [], fs => (fs, [])
  | e :: rest, fs =>
      let file_path := pyJoin to_path e.name
      if e.isfile then
        if fsExists fs file_path && !overwrite then
          let r := tarLoop to_path overwrite rest fs
          (r.1, file_path :: r.2)
        else
          let r := tarLoop to_path overwrite rest (fsSet fs file_path e.node)
          (r.1, file_path :: r.2)
      else
        tarLoop to_path overwrite rest (fsSet fs file_path e.node)

/-- The zip loop: every namelist member is recorded; extraction is skipped
when the target path exists and `overwrite` is false. -/
def zipLoop (to_path : PyStr) (overwrite : Bool) :
    List Entry → FS → FS × List PyStr
  | [], fs => (fs, [])
  | e :: rest, fs =>
      let file_path := pyJoin to_path e.name
      if fsExists fs file_path && !overwrite then
        let r := zipLoop to_path overwrite rest fs
        (r.1, file_path :: r.2)
      else
        let r := zipLoop to_path overwrite rest (fsSet fs file_path e.node)
        (r.1, file_path :: r.2)

/-- The gzip while-loop: successive reads yield the nonempty `blocks`, then
the empty block.  Returns the bytes written inside the loop and the value of
the `block` variable after the loop exits via `break`. -/
def gzLoop : List (List Nat) → List Nat × List Nat
  | [] => ([], [])
  | b :: rest =>
      if b = [] then ([], b)
      else
        let r := gzLoop rest
        (b ++ r.1, r.2)

/-- `default_block_size` in the gzip branch. -/
def default_block_size : Nat := 65536

/-- Everything the gzip branch writes to the output file: the loop writes,
followed by the trailing `d_file.write(block)` that sits after the loop. -/
def gzExtractBytes (content : List Nat) : List Nat :=
  let r := gzLoop (chunksOf default_block_size content)
  r.1 ++ r.2

/-- The extraction root: `to_path`, defaulting to
`os.path.dirname(from_path)`. -/
def resolveToPath (from_path : PyStr) (to_path : Option PyStr) : PyStr :=
  match to_path with
  | none => pyDirname from_path
  | some t => t

/-- `extract_archive(from_path, to_path=None, overwrite=False)`.
Dispatches on the filename suffix; returns the updated filesystem together
with the listing or the raised error.  `arc` is what the archive file at
`from_path` decodes to. -/
def extract_archive (arc : ArchiveData) (fs : FS) (from_path : PyStr)
    (to_path : Option PyStr) (overwrite : Bool) :
    FS × Except ExtractError (List PyStr) :=
  let tp := resolveToPath from_path to_path
  if pyEndsWith from_path ".tar.gz".toList || pyEndsWith from_path ".tgz".toList then
    let r := tarLoop tp overwrite arc.entries fs
    (r.1, Except.ok r.2)
  else if pyEndsWith from_path ".zip".toList then
    if arc.isZip then
      let r := zipLoop tp overwrite arc.entries fs
      (r.1, Except.ok (r.2.filter (fun f => fsIsFile r.1 f)))
    else
      (fs, Except.error (ExtractError.assertionError from_path))
  else if pyEndsWith from_path ".gz".toList then
    let filename := from_path.take (from_path.length - 3)
    let files := [filename]
    (fsSet fs filename (Inode.file (gzExtractBytes arc.gzBytes)), Except.ok files)
  else
    (fs, Except.error (ExtractError.notImplementedError unsupportedMsg))

/-!
## Hash validation and locked download
-/

/-- Errors raised along the download / hash-check path. -/
inductive DLError where
  | valueError : DLError
  | runtimeError (msg : PyStr) : DLError
  | openFailed (p : PyStr) : DLError
deriving DecidableEq

/-- The hash-mismatch message, verbatim from the source
(`"The hash of {} does not match. Delete the file manually and retry."`
formatted with the absolute path). -/
def mismatchMsg (p : PyStr) : PyStr :=
  "The hash of ".toList ++ p ++ " does not match. Delete the file manually and retry.".toList

/-- `validate_file(file_obj, hash_value, hash_type)` on an open file whose
remaining bytes are `fileBytes`.  Checks the algorithm name first; only then
streams the file in `1024 ** 2`-byte chunks through the digest.  Returns the
outcome (ValueError, or the boolean digest comparison) together with the
number of bytes read from the file object. -/
def validate_file (hashFn : PyStr → List Nat → PyStr) (fileBytes : List Nat)
    (hash_value hash_type : PyStr) : Except Unit Bool × Nat :=
  if hash_type = "sha256".toList ∨ hash_type = "md5".toList then
    let cs := chunksOf (1024 ^ 2) fileBytes
    (Except.ok (decide (hashFn hash_type cs.flatten = hash_value)), (cs.map List.length).sum)
  else
    (Except.error (), 0)

instance instDecEqExcept {ε α : Type} [DecidableEq ε] [DecidableEq α] :
    DecidableEq (Except ε α)
  | Except.ok x, Except.ok y =>
      if h : x = y then isTrue (congrArg Except.ok h)
      else isFalse fun hh => h (Except.ok.inj hh)
  | Except.error x, Except.error y =>
      if h : x = y then isTrue (congrArg Except.error h)
      else isFalse fun hh => h (Except.error.inj hh)
  | Except.ok _, Except.error _ => isFalse fun hh => Except.noConfusion hh
  | Except.error _, Except.ok _ => isFalse fun hh => Except.noConfusion hh

/-- The observable behaviour of `_check_hash`: which files it opened for
reading, how many bytes it read, and its outcome. -/
structure CheckOutcome where
  opened : List PyStr
  bytesRead : Nat
  result : Except DLError Unit
deriving DecidableEq

/-- `_check_hash(path, hash_value, hash_type)`: opens `path` for reading,
then runs `validate_file` on the open file object; a false validation
becomes the RuntimeError carrying the absolute path. -/
def _check_hash (hashFn : PyStr → List Nat → PyStr) (cwd : PyStr) (fs : FS)
    (path hash_value hash_type : PyStr) : CheckOutcome :=
  match fsGet fs path with
  | some (Inode.file data) =>
      let v := validate_file hashFn data hash_value hash_type
      match v.1 with
      | Except.error _ => ⟨[path], v.2, Except.error DLError.valueError⟩
      | Except.ok b =>
          if b then ⟨[path], v.2, Except.ok ()⟩
          else ⟨[path], v.2,
                Except.error (DLError.runtimeError (mismatchMsg (pyAbspath cwd path)))⟩
  | _ => ⟨[], 0, Except.error (DLError.openFailed path)⟩

/-- The observable behaviour of `download_from_url`: the filesystem after
the call, the lock files acquired, the URLs handed to the download manager,
the files opened for reading (by hash checks), the bytes read from them,
and the returned path or raised error. -/
structure DLOutcome where
  fs : FS
  locks : List PyStr
  transfers : List PyStr
  opened : List PyStr
  bytesRead : Nat
  result : Except DLError PyStr
deriving DecidableEq

/-- Python truthiness of the `hash_value` argument: `None` and the empty
string are both falsy in `if hash_value:`. -/
def truthyHash : Option PyStr → Option PyStr
  | none => none
  | some hv => if hv = [] then none else some hv

/-- The `(root, filename, path)` triple `download_from_url` computes from
its `url`, `path` and `root` arguments. -/
def resolveDownloadPath (cwd url : PyStr) (path : Option PyStr) (root : PyStr) :
    PyStr × PyStr × PyStr :=
  match path with
  | none =>
      let filename := (pySplit url).2
      let root1 := pyAbspath cwd root
      (root1, filename, pyJoin root1 filename)
  | some p =>
      let p1 := pyAbspath cwd p
      ((pySplit p1).1, (pySplit p1).2, p1)

/-- `download_from_url(url, path, root, overwrite, hash_value, hash_type)`.
The per-filename lock is always acquired (and recorded); lock-directory
creation and lock timeouts are outside the model.  The nested
`if os.path.exists(path): if not overwrite: ...` early return is written as
one guard; `os.makedirs(root)` is modelled as always succeeding. -/
def download_from_url (hashFn : PyStr → List Nat → PyStr)
    (dlContent : PyStr → List Nat) (cwd : PyStr) (fs : FS)
    (url : PyStr) (path : Option PyStr) (root : PyStr) (overwrite : Bool)
    (hash_value : Option PyStr) (hash_type : PyStr) : DLOutcome :=
  let rfp := resolveDownloadPath cwd url path root
  let root1 := rfp.1
  let filename := rfp.2.1
  let path1 := rfp.2.2
  let lockName := filename ++ ".lock".toList
  if fsExists fs path1 && !overwrite then
    match truthyHash hash_value with
    | some hv =>
        let c := _check_hash hashFn cwd fs path1 hv hash_type
        { fs := fs, locks := [lockName], transfers := [], opened := c.opened,
          bytesRead := c.bytesRead,
          result := match c.result with
            | Except.ok _ => Except.ok path1
            | Except.error e => Except.error e }
    | none =>
        { fs := fs, locks := [lockName], transfers := [], opened := [],
          bytesRead := 0, result := Except.ok path1 }
  else
    let fs1 := if fsExists fs root1 then fs else fsSet fs root1 Inode.dir
    let fs2 := fsSet fs1 path1 (Inode.file (dlContent url))
    match truthyHash hash_value with
    | some hv =>
        let c := _check_hash hashFn cwd fs2 path1 hv hash_type
        { fs := fs2, locks := [lockName], transfers := [url], opened := c.opened,
          bytesRead := c.bytesRead,
          result := match c.result with
            | Except.ok _ => Except.ok path1
            | Except.error e => Except.error e }
    | none =>
        { fs := fs2, locks := [lockName], transfers := [url], opened := [],
          bytesRead := 0, result := Except.ok path1 }

/-- `_CACHE_DIR`: `os.path.join(_get_torch_home(), "text")`, with
`expanduser` modelled as the identity. -/
def _CACHE_DIR (torch_home : PyStr) : PyStr := pyJoin torch_home "text".toList

/-- `get_asset_local_path(asset_path, overwrite)`: an existing local entry
is returned unchanged; otherwise the call delegates to `download_from_url`
with `root=_CACHE_DIR`. -/
def get_asset_local_path (hashFn : PyStr → List Nat → PyStr)
    (dlContent : PyStr → List Nat) (cwd torch_home : PyStr) (fs : FS)
    (asset_path : PyStr) (overwrite : Bool) : DLOutcome :=
  if fsExists fs asset_path then
    { fs := fs, locks := [], transfers := [], opened := [], bytesRead := 0,
      result := Except.ok asset_path }
  else
    download_from_url hashFn dlContent cwd fs asset_path none
      (_CACHE_DIR torch_home) overwrite none "sha256".toList

/-!
## The global inference-mode stack
-/

/-- A context entered on the global `ExitStack`. -/
inductive Ctx where
  | inferenceMode : Ctx
deriving DecidableEq

/-- The module-level `_STACK`: `None`, or the stack of entered contexts. -/
abbrev StackState := Option (List Ctx)

/-- `start_inference_mode(device)`: initialises `_STACK` and enters
`torch.inference_mode()` only when `_STACK` is `None`; the `device`
argument is never used. -/
def start_inference_mode (device : PyStr) (s : StackState) : StackState :=
  match s with
  | none => some [Ctx.inferenceMode]
  | some st => some st

/-- `reset_inference_mode()`: `_STACK.close()` then `_STACK = None`; on a
`None` stack the attribute access raises. -/
def reset_inference_mode (s : StackState) : Except Unit StackState :=
  match s with
  | none => Except.error ()
  | some _ => Except.ok none

/-!
## Basic lemmas
-/

theorem fsGet_fsSet (fs : FS) (p q : PyStr) (n : Inode) :
    fsGet (fsSet fs p n) q = if p = q then some n else fsGet fs q := rfl

theorem chunksOfFuel_flatten (sz : Nat) :
    ∀ (fuel : Nat) (bs : List Nat), bs.length ≤ fuel →
      (chunksOfFuel sz fuel bs).flatten = bs := by
  intro fuel
  induction fuel with
  | zero =>
      intro bs h
      cases bs with
      | nil => rfl
      | cons b l => simp at h
  | succ n ih =>
      intro bs h
      cases bs with
      | nil => rfl
      | cons b l =>
          have hk : 1 ≤ max 1 sz := le_max_left 1 sz
          have hlen : ((b :: l).drop (max 1 sz)).length ≤ n := by
            rw [List.length_drop, List.length_cons]
            have h' : l.length + 1 ≤ n + 1 := by simpa using h
            omega
          simp only [chunksOfFuel, List.flatten_cons, ih _ hlen]
          exact List.take_append_drop _ _

theorem chunksOf_flatten (sz : Nat) (bs : List Nat) :
    (chunksOf sz bs).flatten = bs :=
  chunksOfFuel_flatten sz bs.length bs le_rfl

theorem chunksOfFuel_ne_nil (sz : Nat) :
    ∀ (fuel : Nat) (bs : List Nat), ∀ b ∈ chunksOfFuel sz fuel bs, b ≠ [] := by
  intro fuel
  induction fuel with
  | zero =>
      intro bs b hb
      cases bs with
      | nil => simp [chunksOfFuel] at hb
      | cons x l => simp [chunksOfFuel] at hb
  | succ n ih =>
      intro bs b hb
      cases bs with
      | nil => simp [chunksOfFuel] at hb
      | cons x l =>
          simp only [chunksOfFuel, List.mem_cons] at hb
          rcases hb with hb | hb
          · subst hb
            have hk : max 1 sz ≠ 0 := by
              have := le_max_left 1 sz
              omega
            simp [List.take_eq_nil_iff, hk]
          · exact ih _ b hb

theorem gzLoop_flatten (blocks : List (List Nat)) (h : ∀ b ∈ blocks, b ≠ []) :
    gzLoop blocks = (blocks.flatten, []) := by
  induction blocks with
  | nil => rfl
  | cons b rest ih =>
      have hb : b ≠ [] := h b (List.mem_cons_self b rest)
      have hrest : ∀ x ∈ rest, x ≠ [] := fun x hx => h x (List.mem_cons_of_mem b hx)
      simp only [gzLoop, if_neg hb, ih hrest, List.flatten_cons]

/-- The gzip branch writes exactly the decompressed content: all blocks the
loop reads are nonempty, so the `block` left over after the loop is the
empty end-of-file read, and the trailing write appends nothing. -/
theorem gzExtractBytes_eq (content : List Nat) : gzExtractBytes content = content := by
  have h := gzLoop_flatten (chunksOf default_block_size content)
    (chunksOfFuel_ne_nil default_block_size content.length content)
  show (gzLoop (chunksOf default_block_size content)).1 ++
      (gzLoop (chunksOf default_block_size content)).2 = content
  rw [h]
  simp [chunksOf_flatten]

theorem extract_archive_gz (arc : ArchiveData) (fs : FS) (from_path : PyStr)
    (to_path : Option PyStr) (overwrite : Bool)
    (h1 : pyEndsWith from_path ".tar.gz".toList = false)
    (h2 : pyEndsWith from_path ".tgz".toList = false)
    (h3 : pyEndsWith from_path ".zip".toList = false)
    (h4 : pyEndsWith from_path ".gz".toList = true) :
    extract_archive arc fs from_path to_path overwrite =
      (fsSet fs (from_path.take (from_path.length - 3))
         (Inode.file (gzExtractBytes arc.gzBytes)),
       Except.ok [from_path.take (from_path.length - 3)]) := by
  unfold extract_archive
  simp at h1 h2 h3 h4
  simp [h1, h2, h3, h4]

/-!
## Claims about `extract_archive`
-/

/-- C1, counterexample: extracting a gzip file whose decompressed content is
the nonempty `[1, 2]` writes exactly `[1, 2]` to the output file, not the
final-block-duplicated `[1, 2] ++ [1, 2]` the claim asserts. -/
theorem C1_counterexample :
    (extract_archive ⟨[], [1, 2], false⟩ [] "a.gz".toList none false).1 =
      [("a".toList, Inode.file [1, 2])] ∧
    (extract_archive ⟨[], [1, 2], false⟩ [] "a.gz".toList none false).1 ≠
      [("a".toList, Inode.file ([1, 2] ++ [1, 2]))] := by
  decide

/-- C1, amended: in single-file gzip extraction the write after the loop
writes the `block` variable, which at that point holds the empty
end-of-file read that terminated the loop (second component of `gzLoop`);
the output file therefore holds exactly the decompressed content, with no
trailing duplication. -/
theorem C1_gz_no_duplication (arc : ArchiveData) (fs : FS) (from_path : PyStr)
    (to_path : Option PyStr) (overwrite : Bool)
    (h1 : pyEndsWith from_path ".tar.gz".toList = false)
    (h2 : pyEndsWith from_path ".tgz".toList = false)
    (h3 : pyEndsWith from_path ".zip".toList = false)
    (h4 : pyEndsWith from_path ".gz".toList = true) :
    gzLoop (chunksOf default_block_size arc.gzBytes) = (arc.gzBytes, []) ∧
    extract_archive arc fs from_path to_path overwrite =
      (fsSet fs (from_path.take (from_path.length - 3)) (Inode.file arc.gzBytes),
       Except.ok [from_path.take (from_path.length - 3)]) := by
  constructor
  · rw [gzLoop_flatten (chunksOf default_block_size arc.gzBytes)
      (chunksOfFuel_ne_nil default_block_size arc.gzBytes.length arc.gzBytes)]
    rw [chunksOf_flatten]
  · rw [extract_archive_gz arc fs from_path to_path overwrite h1 h2 h3 h4,
      gzExtractBytes_eq]

theorem C1_gz_no_duplication_witness :
    pyEndsWith "a.gz".toList ".gz".toList = true ∧
    extract_archive ⟨[], [3, 4], false⟩ [] "a.gz".toList none false =
      (fsSet [] ("a.gz".toList.take ("a.gz".toList.length - 3)) (Inode.file [3, 4]),
       Except.ok ["a.gz".toList.take ("a.gz".toList.length - 3)]) :=
  ⟨by decide,
   (C1_gz_no_duplication ⟨[], [3, 4], false⟩ [] "a.gz".toList none false
      (by decide) (by decide) (by decide) (by decide)).2⟩

/-- C9: in single-file gzip extraction the `to_path` argument has no effect
on the result; the output is written to `from_path` with its last three
characters stripped (alongside the source archive), and the returned
listing is exactly that one path. -/
theorem C9_gz_ignores_to_path (arc : ArchiveData) (fs : FS) (from_path : PyStr)
    (t1 t2 : Option PyStr) (overwrite : Bool)
    (h1 : pyEndsWith from_path ".tar.gz".toList = false)
    (h2 : pyEndsWith from_path ".tgz".toList = false)
    (h3 : pyEndsWith from_path ".zip".toList = false)
    (h4 : pyEndsWith from_path ".gz".toList = true) :
    extract_archive arc fs from_path t1 overwrite =
      extract_archive arc fs from_path t2 overwrite ∧
    (extract_archive arc fs from_path t1 overwrite).2 =
      Except.ok [from_path.take (from_path.length - 3)] ∧
    fsGet (extract_archive arc fs from_path t1 overwrite).1
        (from_path.take (from_path.length - 3)) =
      some (Inode.file (gzExtractBytes arc.gzBytes)) := by
  rw [extract_archive_gz arc fs from_path t1 overwrite h1 h2 h3 h4,
    extract_archive_gz arc fs from_path t2 overwrite h1 h2 h3 h4]
  refine ⟨rfl, rfl, ?_⟩
  rw [fsGet_fsSet]
  simp

theorem C9_gz_ignores_to_path_witness :
    pyEndsWith "a.gz".toList ".gz".toList = true ∧
    extract_archive ⟨[], [7], false⟩ [] "a.gz".toList (some "x".toList) false =
      extract_archive ⟨[], [7], false⟩ [] "a.gz".toList (some "y/z".toList) false :=
  ⟨by decide,
   (C9_gz_ignores_to_path ⟨[], [7], false⟩ [] "a.gz".toList (some "x".toList)
      (some "y/z".toList) false (by decide) (by decide) (by decide) (by decide)).1⟩

/-- C7: for a `from_path` whose suffix is none of `.tar.gz`, `.tgz`, `.zip`,
`.gz`, `extract_archive` raises the unsupported-format error naming the
supported suffixes, leaves the filesystem unchanged, and its behaviour does
not depend on the file's contents (no magic-byte sniffing). -/
theorem C7_unsupported_suffix (from_path : PyStr)
    (h1 : pyEndsWith from_path ".tar.gz".toList = false)
    (h2 : pyEndsWith from_path ".tgz".toList = false)
    (h3 : pyEndsWith from_path ".zip".toList = false)
    (h4 : pyEndsWith from_path ".gz".toList = false) :
    ∀ (arc arcB : ArchiveData) (fs : FS) (to_path : Option PyStr) (overwrite : Bool),
      extract_archive arc fs from_path to_path overwrite =
        (fs, Except.error (ExtractError.notImplementedError unsupportedMsg)) ∧
      extract_archive arc fs from_path to_path overwrite =
        extract_archive arcB fs from_path to_path overwrite := by
  intro arc arcB fs to_path overwrite
  simp at h1 h2 h3 h4
  constructor
  · unfold extract_archive
    simp [h1, h2, h3, h4]
  · unfold extract_archive
    simp [h1, h2, h3, h4]

theorem C7_unsupported_suffix_witness :
    pyEndsWith "a.rar".toList ".zip".toList = false ∧
    extract_archive ⟨[⟨"x".toList, Inode.file [1]⟩], [2], true⟩ [] "a.rar".toList none false =
      ([], Except.error (ExtractError.notImplementedError unsupportedMsg)) :=
  ⟨by decide,
   (C7_unsupported_suffix "a.rar".toList (by decide) (by decide) (by decide) (by decide)
      ⟨[⟨"x".toList, Inode.file [1]⟩], [2], true⟩ ⟨[], [], false⟩ [] none false).1⟩

theorem extract_archive_tar (arc : ArchiveData) (fs : FS) (from_path : PyStr)
    (to_path : Option PyStr) (overwrite : Bool)
    (h : (pyEndsWith from_path ".tar.gz".toList ||
          pyEndsWith from_path ".tgz".toList) = true) :
    extract_archive arc fs from_path to_path overwrite =
      ((tarLoop (resolveToPath from_path to_path) overwrite arc.entries fs).1,
       Except.ok (tarLoop (resolveToPath from_path to_path) overwrite arc.entries fs).2) := by
  unfold extract_archive
  simp at h
  rcases h with h | h
  · simp [h]
  · simp [h]

theorem tarLoop_listing (tp : PyStr) (ow : Bool) :
    ∀ (entries : List Entry) (fs : FS),
      (tarLoop tp ow entries fs).2 =
        (entries.filter Entry.isfile).map (fun e => pyJoin tp e.name) := by
  intro entries
  induction entries with
  | nil =>
      intro fs
      rfl
  | cons e rest ih =>
      intro fs
      by_cases hf : e.isfile = true
      · by_cases hg : (fsExists fs (pyJoin tp e.name) && !ow) = true
        · simp [tarLoop, hf, hg, List.filter_cons, ih]
        · simp [tarLoop, hf, hg, List.filter_cons, ih]
      · simp [tarLoop, hf, List.filter_cons, ih]

theorem tarLoop_dir_stable (tp : PyStr) :
    ∀ (entries : List Entry) (fs : FS) (p : PyStr),
      fsGet fs p = some Inode.dir →
      fsGet (tarLoop tp false entries fs).1 p = some Inode.dir := by
  intro entries
  induction entries with
  | nil =>
      intro fs p h
      exact h
  | cons e rest ih =>
      intro fs p h
      by_cases hf : e.isfile = true
      · by_cases hex : fsExists fs (pyJoin tp e.name) = true
        · simp [tarLoop, hf, hex]
          exact ih fs p h
        · have hpe : pyJoin tp e.name ≠ p := by
            intro hEq
            apply hex
            unfold fsExists
            rw [hEq, h]
            rfl
          simp [tarLoop, hf, hex]
          apply ih
          rw [fsGet_fsSet, if_neg hpe]
          exact h
      · simp [tarLoop, hf]
        apply ih
        by_cases hpe : pyJoin tp e.name = p
        · have hdir : e.node = Inode.dir := by
            cases hn : e.node
            · exact absurd (by simp [Entry.isfile, hn]) hf
            · rfl
          rw [fsGet_fsSet, if_pos hpe, hdir]
        · rw [fsGet_fsSet, if_neg hpe]
          exact h

theorem tarLoop_dir_entry_final (tp : PyStr) :
    ∀ (entries : List Entry) (fs : FS) (e : Entry),
      e ∈ entries → e.node = Inode.dir →
      fsGet (tarLoop tp false entries fs).1 (pyJoin tp e.name) = some Inode.dir := by
  intro entries
  induction entries with
  | nil =>
      intro fs e he
      cases he
  | cons e0 rest ih =>
      intro fs e he hdir
      rcases List.mem_cons.mp he with he0 | hrest
      · subst he0
        have hf : e.isfile = false := by
          simp [Entry.isfile, hdir]
        simp [tarLoop, hf]
        apply tarLoop_dir_stable
        rw [fsGet_fsSet, if_pos rfl, hdir]
      · by_cases hf : e0.isfile = true
        · by_cases hex : fsExists fs (pyJoin tp e0.name) = true
          · simp [tarLoop, hf, hex]
            exact ih fs e hrest hdir
          · simp [tarLoop, hf, hex]
            exact ih _ e hrest hdir
        · simp [tarLoop, hf]
          exact ih _ e hrest hdir

theorem tarLoop_file_preserved (tp : PyStr) :
    ∀ (entries : List Entry) (fs : FS) (p : PyStr) (c : List Nat),
      fsGet fs p = some (Inode.file c) →
      (∀ e ∈ entries, e.node = Inode.dir → pyJoin tp e.name ≠ p) →
      fsGet (tarLoop tp false entries fs).1 p = some (Inode.file c) := by
  intro entries
  induction entries with
  | nil =>
      intro fs p c h _
      exact h
  | cons e rest ih =>
      intro fs p c h hnd
      have hnd' : ∀ x ∈ rest, x.node = Inode.dir → pyJoin tp x.name ≠ p :=
        fun x hx => hnd x (List.mem_cons_of_mem e hx)
      by_cases hf : e.isfile = true
      · by_cases hex : fsExists fs (pyJoin tp e.name) = true
        · simp [tarLoop, hf, hex]
          exact ih fs p c h hnd'
        · have hpe : pyJoin tp e.name ≠ p := by
            intro hEq
            apply hex
            unfold fsExists
            rw [hEq, h]
            rfl
          simp [tarLoop, hf, hex]
          apply ih _ p c _ hnd'
          rw [fsGet_fsSet, if_neg hpe]
          exact h
      · have hdir : e.node = Inode.dir := by
          cases hn : e.node
          · exact absurd (by simp [Entry.isfile, hn]) hf
          · rfl
        have hpe : pyJoin tp e.name ≠ p := hnd e (List.mem_cons_self e rest) hdir
        simp [tarLoop, hf]
        apply ih _ p c _ hnd'
        rw [fsGet_fsSet, if_neg hpe]
        exact h

/-- C4: re-extracting a tar archive with `overwrite=false` over a
destination derived from a previous extraction (directories intact, file
contents possibly modified since — e.g. a sentinel write) returns the same
listing as the fresh extraction — every regular-file member's target path,
in archive order — while the contents of every file present before the
re-extraction are left unchanged. -/
theorem C4_tar_reextract_preserves (arc : ArchiveData) (fs0 fs2 : FS)
    (from_path : PyStr) (to_path : Option PyStr)
    (htar : (pyEndsWith from_path ".tar.gz".toList ||
             pyEndsWith from_path ".tgz".toList) = true)
    (hdirs : ∀ p, fsGet (extract_archive arc fs0 from_path to_path false).1 p =
        some Inode.dir → fsGet fs2 p = some Inode.dir) :
    (extract_archive arc fs2 from_path to_path false).2 =
      (extract_archive arc fs0 from_path to_path false).2 ∧
    (extract_archive arc fs2 from_path to_path false).2 =
      Except.ok ((arc.entries.filter Entry.isfile).map
        (fun e => pyJoin (resolveToPath from_path to_path) e.name)) ∧
    (∀ p c, fsGet fs2 p = some (Inode.file c) →
      fsGet (extract_archive arc fs2 from_path to_path false).1 p =
        some (Inode.file c)) := by
  rw [extract_archive_tar arc fs0 from_path to_path false htar] at hdirs
  rw [extract_archive_tar arc fs0 from_path to_path false htar,
    extract_archive_tar arc fs2 from_path to_path false htar]
  refine ⟨?_, ?_, ?_⟩
  · rw [tarLoop_listing, tarLoop_listing]
  · rw [tarLoop_listing]
  · intro p c hp
    apply tarLoop_file_preserved (resolveToPath from_path to_path) arc.entries fs2 p c hp
    intro e he hdir hpe
    have h1 := tarLoop_dir_entry_final (resolveToPath from_path to_path)
      arc.entries fs0 e he hdir
    rw [hpe] at h1
    have h2 := hdirs p h1
    rw [hp] at h2
    simp at h2

theorem C4_tar_reextract_preserves_witness :
    (extract_archive ⟨[⟨"a".toList, Inode.file [1]⟩], [], false⟩
        [("t/a".toList, Inode.file [9])] "b.tar.gz".toList (some "t".toList) false).2 =
      Except.ok ["t/a".toList] ∧
    fsGet (extract_archive ⟨[⟨"a".toList, Inode.file [1]⟩], [], false⟩
        [("t/a".toList, Inode.file [9])] "b.tar.gz".toList (some "t".toList) false).1
      "t/a".toList = some (Inode.file [9]) := by
  have h := C4_tar_reextract_preserves ⟨[⟨"a".toList, Inode.file [1]⟩], [], false⟩
    [] [("t/a".toList, Inode.file [9])] "b.tar.gz".toList (some "t".toList)
    (by decide)
    (by
      intro p hp
      have he : (extract_archive ⟨[⟨"a".toList, Inode.file [1]⟩], [], false⟩ []
          "b.tar.gz".toList (some "t".toList) false).1 =
          [("t/a".toList, Inode.file [1])] := by decide
      rw [he] at hp
      simp only [fsGet] at hp
      split at hp
      · exact absurd hp (by simp)
      · exact absurd hp (by simp [fsGet]))
  refine ⟨?_, h.2.2 "t/a".toList [9] (by decide)⟩
  rw [h.2.1]
  decide

theorem extract_archive_zip (arc : ArchiveData) (fs : FS) (from_path : PyStr)
    (to_path : Option PyStr) (overwrite : Bool)
    (h1 : pyEndsWith from_path ".tar.gz".toList = false)
    (h2 : pyEndsWith from_path ".tgz".toList = false)
    (h3 : pyEndsWith from_path ".zip".toList = true)
    (hz : arc.isZip = true) :
    extract_archive arc fs from_path to_path overwrite =
      ((zipLoop (resolveToPath from_path to_path) overwrite arc.entries fs).1,
       Except.ok
         ((zipLoop (resolveToPath from_path to_path) overwrite arc.entries fs).2.filter
           (fun f =>
             fsIsFile (zipLoop (resolveToPath from_path to_path) overwrite arc.entries fs).1
               f))) := by
  unfold extract_archive
  simp at h1 h2 h3
  simp [h1, h2, h3, hz]

theorem zipLoop_untouched (tp : PyStr) (ow : Bool) :
    ∀ (entries : List Entry) (fs : FS) (q : PyStr),
      (∀ e ∈ entries, pyJoin tp e.name ≠ q) →
      fsGet (zipLoop tp ow entries fs).1 q = fsGet fs q := by
  intro entries
  induction entries with
  | nil =>
      intro fs q _
      rfl
  | cons e rest ih =>
      intro fs q hne
      have hne' : ∀ x ∈ rest, pyJoin tp x.name ≠ q :=
        fun x hx => hne x (List.mem_cons_of_mem e hx)
      have hq : pyJoin tp e.name ≠ q := hne e (List.mem_cons_self e rest)
      by_cases hg : (fsExists fs (pyJoin tp e.name) && !ow) = true
      · simp [zipLoop, hg]
        exact ih fs q hne'
      · simp [zipLoop, hg]
        rw [ih _ q hne', fsGet_fsSet, if_neg hq]

theorem zipLoop_fresh (tp : PyStr) (ow : Bool) :
    ∀ (entries : List Entry) (fs : FS),
      (∀ e ∈ entries, fsExists fs (pyJoin tp e.name) = false) →
      (entries.map (fun e => pyJoin tp e.name)).Nodup →
      (zipLoop tp ow entries fs).2.filter
          (fun f => fsIsFile (zipLoop tp ow entries fs).1 f) =
        (entries.filter Entry.isfile).map (fun e => pyJoin tp e.name) := by
  intro entries
  induction entries with
  | nil =>
      intro fs _ _
      rfl
  | cons e rest ih =>
      intro fs hfresh hnd
      have hg : (fsExists fs (pyJoin tp e.name) && !ow) = false := by
        rw [hfresh e (List.mem_cons_self e rest)]
        rfl
      have hnotin : pyJoin tp e.name ∉ rest.map (fun y => pyJoin tp y.name) :=
        (List.nodup_cons.mp hnd).1
      have hfresh' : ∀ x ∈ rest,
          fsExists (fsSet fs (pyJoin tp e.name) e.node) (pyJoin tp x.name) = false := by
        intro x hx
        have hne : pyJoin tp e.name ≠ pyJoin tp x.name := by
          intro hEq
          exact hnotin (hEq ▸ List.mem_map_of_mem (fun y => pyJoin tp y.name) hx)
        unfold fsExists
        rw [fsGet_fsSet, if_neg hne]
        exact hfresh x (List.mem_cons_of_mem e hx)
      have hnd' : (rest.map (fun e => pyJoin tp e.name)).Nodup :=
        (List.nodup_cons.mp hnd).2
      have hhead : fsGet (zipLoop tp ow rest (fsSet fs (pyJoin tp e.name) e.node)).1
          (pyJoin tp e.name) = some e.node := by
        rw [zipLoop_untouched tp ow rest _ (pyJoin tp e.name) ?_]
        · rw [fsGet_fsSet, if_pos rfl]
        · intro x hx hEq
          exact hnotin (hEq ▸ List.mem_map_of_mem (fun y => pyJoin tp y.name) hx)
      simp only [zipLoop, hg, Bool.false_eq_true, if_false]
      cases hnode : e.node with
      | file d =>
          have hfile : fsIsFile
              (zipLoop tp ow rest (fsSet fs (pyJoin tp e.name) e.node)).1
              (pyJoin tp e.name) = true := by
            unfold fsIsFile
            rw [hhead, hnode]
          have hef : e.isfile = true := by
            simp [Entry.isfile, hnode]
          rw [← hnode]
          simp [List.filter_cons, hfile, hef, ih _ hfresh' hnd']
      | dir =>
          have hfile : fsIsFile
              (zipLoop tp ow rest (fsSet fs (pyJoin tp e.name) e.node)).1
              (pyJoin tp e.name) = false := by
            unfold fsIsFile
            rw [hhead, hnode]
          have hef : e.isfile = false := by
            simp [Entry.isfile, hnode]
          rw [← hnode]
          simp [List.filter_cons, hfile, hef, ih _ hfresh' hnd']

/-- C5: on a fresh destination (no member's target path exists yet, target
paths pairwise distinct), extracting a zip archive returns exactly the
member paths that are regular files on disk afterwards: directory entries
of the namelist are excluded from the returned listing, while the file
entries appear in namelist order. -/
theorem C5_zip_listing_filtered (arc : ArchiveData) (fs : FS) (from_path : PyStr)
    (to_path : Option PyStr) (overwrite : Bool)
    (h1 : pyEndsWith from_path ".tar.gz".toList = false)
    (h2 : pyEndsWith from_path ".tgz".toList = false)
    (h3 : pyEndsWith from_path ".zip".toList = true)
    (hz : arc.isZip = true)
    (hfresh : ∀ e ∈ arc.entries,
      fsExists fs (pyJoin (resolveToPath from_path to_path) e.name) = false)
    (hnodup : (arc.entries.map
      (fun e => pyJoin (resolveToPath from_path to_path) e.name)).Nodup) :
    (extract_archive arc fs from_path to_path overwrite).2 =
      Except.ok ((arc.entries.filter Entry.isfile).map
        (fun e => pyJoin (resolveToPath from_path to_path) e.name)) := by
  rw [extract_archive_zip arc fs from_path to_path overwrite h1 h2 h3 hz]
  rw [zipLoop_fresh (resolveToPath from_path to_path) overwrite arc.entries fs
    hfresh hnodup]

theorem C5_zip_listing_filtered_witness :
    (extract_archive
        ⟨[⟨"x".toList, Inode.file [5]⟩, ⟨"d".toList, Inode.dir⟩,
          ⟨"y".toList, Inode.file [6]⟩], [], true⟩
        [] "b.zip".toList (some "t".toList) false).2 =
      Except.ok ["t/x".toList, "t/y".toList] := by
  have h := C5_zip_listing_filtered
    ⟨[⟨"x".toList, Inode.file [5]⟩, ⟨"d".toList, Inode.dir⟩,
      ⟨"y".toList, Inode.file [6]⟩], [], true⟩
    [] "b.zip".toList (some "t".toList) false
    (by decide) (by decide) (by decide) (by decide) (by decide) (by decide)
  rw [h]
  decide

/-!
## Claims about hash validation and download
-/

theorem validate_file_valid (hashFn : PyStr → List Nat → PyStr) (fileBytes : List Nat)
    (hash_value hash_type : PyStr)
    (h : hash_type = "sha256".toList ∨ hash_type = "md5".toList) :
    validate_file hashFn fileBytes hash_value hash_type =
      (Except.ok (decide (hashFn hash_type fileBytes = hash_value)), fileBytes.length) := by
  have hflat := chunksOf_flatten (1024 ^ 2) fileBytes
  have hsum : ((chunksOf (1024 ^ 2) fileBytes).map List.length).sum = fileBytes.length := by
    rw [← List.length_flatten, hflat]
  unfold validate_file
  rw [if_pos h]
  show (Except.ok (decide (hashFn hash_type (chunksOf (1024 ^ 2) fileBytes).flatten = hash_value)),
      (List.map List.length (chunksOf (1024 ^ 2) fileBytes)).sum) =
    (Except.ok (decide (hashFn hash_type fileBytes = hash_value)), fileBytes.length)
  rw [hflat, hsum]

/-- C3, counterexample: requesting hash type `"sha1"` through the download
path's hash check raises the ValueError only after `_check_hash` has opened
the file for reading — `opened` is nonempty — so the claim's "no file is
opened" fails, even though no bytes are read. -/
theorem C3_counterexample :
    (download_from_url (fun _ _ => "h".toList) (fun _ => []) "/c".toList
        [("/c/f".toList, Inode.file [7])] "u".toList (some "/c/f".toList)
        ".data".toList false (some "h".toList) "sha1".toList).result =
      Except.error DLError.valueError ∧
    (download_from_url (fun _ _ => "h".toList) (fun _ => []) "/c".toList
        [("/c/f".toList, Inode.file [7])] "u".toList (some "/c/f".toList)
        ".data".toList false (some "h".toList) "sha1".toList).opened =
      ["/c/f".toList] := by
  decide

/-- C3, amended: for every hash type other than `"sha256"` and `"md5"`,
validation fails with the ValueError having read no bytes.  Called directly,
`validate_file` reads nothing from its file object before raising; reached
through the download path's `_check_hash`, the file has already been opened
(the `with open(path, "rb")` precedes the call) but no bytes are read from
it before the error. -/
theorem C3_bad_hash_type_reads_nothing (hashFn : PyStr → List Nat → PyStr)
    (hash_value hash_type : PyStr)
    (h1 : hash_type ≠ "sha256".toList) (h2 : hash_type ≠ "md5".toList) :
    (∀ fileBytes, validate_file hashFn fileBytes hash_value hash_type =
      (Except.error (), 0)) ∧
    (∀ (cwd : PyStr) (fs : FS) (path : PyStr) (data : List Nat),
      fsGet fs path = some (Inode.file data) →
      _check_hash hashFn cwd fs path hash_value hash_type =
        ⟨[path], 0, Except.error DLError.valueError⟩) := by
  have hv : ∀ fileBytes, validate_file hashFn fileBytes hash_value hash_type =
      (Except.error (), 0) := by
    intro fileBytes
    unfold validate_file
    rw [if_neg]
    rintro (hc | hc)
    · exact h1 hc
    · exact h2 hc
  refine ⟨hv, ?_⟩
  intro cwd fs path data hget
  unfold _check_hash
  rw [hget]
  simp [hv data]

theorem C3_bad_hash_type_reads_nothing_witness :
    "sha1".toList ≠ "sha256".toList ∧
    _check_hash (fun _ _ => "h".toList) "/c".toList [("f".toList, Inode.file [7])]
        "f".toList "h".toList "sha1".toList =
      ⟨["f".toList], 0, Except.error DLError.valueError⟩ :=
  ⟨by decide,
   (C3_bad_hash_type_reads_nothing (fun _ _ => "h".toList) "h".toList "sha1".toList
      (by decide) (by decide)).2 "/c".toList [("f".toList, Inode.file [7])]
      "f".toList [7] (by decide)⟩

/-- C2: when the destination path already exists and `overwrite` is false,
`download_from_url` performs no transfer and leaves the filesystem
unchanged; with no (truthy) hash supplied it returns the existing path
immediately, opening and reading nothing; with a hash supplied it
re-validates the existing file — returning the path when the digest matches
and raising the integrity RuntimeError when it does not. -/
theorem C2_cached_no_retransfer (hashFn : PyStr → List Nat → PyStr)
    (dlContent : PyStr → List Nat) (cwd : PyStr) (fs : FS) (url : PyStr)
    (path : Option PyStr) (root : PyStr) (hash_value : Option PyStr)
    (hash_type : PyStr) (root1 fname p1 : PyStr) (o : DLOutcome)
    (hres : resolveDownloadPath cwd url path root = (root1, fname, p1))
    (hex : fsExists fs p1 = true)
    (ho : download_from_url hashFn dlContent cwd fs url path root false
        hash_value hash_type = o) :
    o.transfers = [] ∧ o.fs = fs ∧ o.locks = [fname ++ ".lock".toList] ∧
    (truthyHash hash_value = none →
      o.opened = [] ∧ o.bytesRead = 0 ∧ o.result = Except.ok p1) ∧
    (∀ hv data, truthyHash hash_value = some hv →
      fsGet fs p1 = some (Inode.file data) →
      (hash_type = "sha256".toList ∨ hash_type = "md5".toList) →
      o.opened = [p1] ∧ o.bytesRead = data.length ∧
      (hashFn hash_type data = hv → o.result = Except.ok p1) ∧
      (hashFn hash_type data ≠ hv →
        o.result = Except.error
          (DLError.runtimeError (mismatchMsg (pyAbspath cwd p1))))) := by
  have hkey : download_from_url hashFn dlContent cwd fs url path root false
      hash_value hash_type =
      match truthyHash hash_value with
      | some hv =>
          { fs := fs, locks := [fname ++ ".lock".toList], transfers := [],
            opened := (_check_hash hashFn cwd fs p1 hv hash_type).opened,
            bytesRead := (_check_hash hashFn cwd fs p1 hv hash_type).bytesRead,
            result := match (_check_hash hashFn cwd fs p1 hv hash_type).result with
              | Except.ok _ => Except.ok p1
              | Except.error e => Except.error e }
      | none =>
          { fs := fs, locks := [fname ++ ".lock".toList], transfers := [],
            opened := [], bytesRead := 0, result := Except.ok p1 } := by
    unfold download_from_url
    rw [hres]
    simp [hex]
  subst ho
  rw [hkey]
  refine ⟨?_, ?_, ?_, ?_, ?_⟩
  · cases truthyHash hash_value <;> rfl
  · cases truthyHash hash_value <;> rfl
  · cases truthyHash hash_value <;> rfl
  · intro hnone
    rw [hnone]
    exact ⟨rfl, rfl, rfl⟩
  · intro hv data hsome hget hvalid
    have hch : _check_hash hashFn cwd fs p1 hv hash_type =
        ⟨[p1], data.length,
         if hashFn hash_type data = hv then Except.ok ()
         else Except.error
           (DLError.runtimeError (mismatchMsg (pyAbspath cwd p1)))⟩ := by
      unfold _check_hash
      rw [hget]
      simp only [validate_file_valid hashFn data hv hash_type hvalid]
      by_cases hcmp : hashFn hash_type data = hv
      · simp [hcmp]
      · simp [hcmp]
    simp only [hsome, hch]
    by_cases hcmp : hashFn hash_type data = hv
    · simp [hcmp]
    · simp [hcmp]

theorem C2_cached_no_retransfer_witness :
    (download_from_url (fun _ _ => "d".toList) (fun _ => [9]) "/c".toList
        [("/c/f".toList, Inode.file [7])] "u".toList (some "/c/f".toList)
        ".data".toList false none "sha256".toList).transfers = [] ∧
    (download_from_url (fun _ _ => "d".toList) (fun _ => [9]) "/c".toList
        [("/c/f".toList, Inode.file [7])] "u".toList (some "/c/f".toList)
        ".data".toList false none "sha256".toList).result =
      Except.ok "/c/f".toList := by
  have h := C2_cached_no_retransfer (fun _ _ => "d".toList) (fun _ => [9]) "/c".toList
    [("/c/f".toList, Inode.file [7])] "u".toList (some "/c/f".toList) ".data".toList
    none "sha256".toList "/c".toList "f".toList "/c/f".toList _
    (by decide) (by decide) rfl
  exact ⟨h.1, (h.2.2.2.1 (by decide)).2.2⟩

/-- C6: whenever the computed hash of a file does not match the expected
value — for an existing cached file or a freshly downloaded one — the
operation fails with the RuntimeError whose message carries the file's
absolute path and ends with the manual-deletion instruction; the file is
left in place unchanged (cached case: filesystem untouched, no transfer;
fresh case: the downloaded bytes stay at the destination, one transfer, no
retry). -/
theorem C6_hash_mismatch_manual_delete (hashFn : PyStr → List Nat → PyStr)
    (dlContent : PyStr → List Nat) (cwd : PyStr) (fs : FS) (url : PyStr)
    (path : Option PyStr) (root : PyStr) (overwrite : Bool) (hv hash_type : PyStr)
    (root1 fname p1 : PyStr) (o : DLOutcome)
    (hres : resolveDownloadPath cwd url path root = (root1, fname, p1))
    (hvalid : hash_type = "sha256".toList ∨ hash_type = "md5".toList)
    (hhv : hv ≠ [])
    (ho : download_from_url hashFn dlContent cwd fs url path root overwrite
        (some hv) hash_type = o) :
    (∃ pre post, mismatchMsg (pyAbspath cwd p1) = pre ++ pyAbspath cwd p1 ++ post) ∧
    (∃ pre2, mismatchMsg (pyAbspath cwd p1) =
      pre2 ++ "Delete the file manually and retry.".toList) ∧
    (∀ data, overwrite = false → fsGet fs p1 = some (Inode.file data) →
      hashFn hash_type data ≠ hv →
      o.result = Except.error (DLError.runtimeError (mismatchMsg (pyAbspath cwd p1))) ∧
      o.fs = fs ∧ o.transfers = []) ∧
    (fsExists fs p1 = false →
      hashFn hash_type (dlContent url) ≠ hv →
      o.result = Except.error (DLError.runtimeError (mismatchMsg (pyAbspath cwd p1))) ∧
      fsGet o.fs p1 = some (Inode.file (dlContent url)) ∧
      o.transfers = [url]) := by
  have htv : truthyHash (some hv) = some hv := by
    simp [truthyHash, hhv]
  have hmsg2 : " does not match. Delete the file manually and retry.".toList =
      " does not match. ".toList ++ "Delete the file manually and retry.".toList := by
    decide
  refine ⟨⟨"The hash of ".toList,
      " does not match. Delete the file manually and retry.".toList, rfl⟩, ?_, ?_, ?_⟩
  · refine ⟨"The hash of ".toList ++ pyAbspath cwd p1 ++ " does not match. ".toList, ?_⟩
    unfold mismatchMsg
    rw [hmsg2]
    simp [List.append_assoc]
  · intro data how hget hcmp
    subst how
    have hex : fsExists fs p1 = true := by
      unfold fsExists
      rw [hget]
      rfl
    have hch : _check_hash hashFn cwd fs p1 hv hash_type =
        ⟨[p1], data.length,
         Except.error (DLError.runtimeError (mismatchMsg (pyAbspath cwd p1)))⟩ := by
      unfold _check_hash
      rw [hget]
      simp only [validate_file_valid hashFn data hv hash_type hvalid]
      simp [hcmp]
    have hkey : download_from_url hashFn dlContent cwd fs url path root false
        (some hv) hash_type =
        { fs := fs, locks := [fname ++ ".lock".toList], transfers := [],
          opened := [p1], bytesRead := data.length,
          result := Except.error
            (DLError.runtimeError (mismatchMsg (pyAbspath cwd p1))) } := by
      unfold download_from_url
      rw [hres]
      simp [hex, htv, hch]
    rw [hkey] at ho
    rw [← ho]
    exact ⟨rfl, rfl, rfl⟩
  · intro hnex hcmp
    have hguard : (fsExists fs p1 && !overwrite) = false := by
      rw [hnex]
      rfl
    have hget2 : fsGet (fsSet (if fsExists fs root1 then fs
        else fsSet fs root1 Inode.dir) p1 (Inode.file (dlContent url))) p1 =
        some (Inode.file (dlContent url)) := by
      rw [fsGet_fsSet, if_pos rfl]
    have hch : _check_hash hashFn cwd
        (fsSet (if fsExists fs root1 then fs else fsSet fs root1 Inode.dir) p1
          (Inode.file (dlContent url))) p1 hv hash_type =
        ⟨[p1], (dlContent url).length,
         Except.error (DLError.runtimeError (mismatchMsg (pyAbspath cwd p1)))⟩ := by
      unfold _check_hash
      rw [hget2]
      simp only [validate_file_valid hashFn (dlContent url) hv hash_type hvalid]
      simp [hcmp]
    have hkey : download_from_url hashFn dlContent cwd fs url path root overwrite
        (some hv) hash_type =
        { fs := fsSet (if fsExists fs root1 then fs else fsSet fs root1 Inode.dir) p1
            (Inode.file (dlContent url)),
          locks := [fname ++ ".lock".toList], transfers := [url],
          opened := [p1], bytesRead := (dlContent url).length,
          result := Except.error
            (DLError.runtimeError (mismatchMsg (pyAbspath cwd p1))) } := by
      unfold download_from_url
      rw [hres]
      simp [hguard, htv, hch]
    rw [hkey] at ho
    rw [← ho]
    exact ⟨rfl, hget2, rfl⟩

theorem C6_hash_mismatch_manual_delete_witness :
    (download_from_url (fun _ _ => "x".toList) (fun _ => [9]) "/c".toList
        [("/c/f".toList, Inode.file [7])] "u".toList (some "/c/f".toList)
        ".data".toList false (some "h".toList) "sha256".toList).result =
      Except.error (DLError.runtimeError (mismatchMsg "/c/f".toList)) ∧
    (download_from_url (fun _ _ => "x".toList) (fun _ => [9]) "/c".toList
        [("/c/f".toList, Inode.file [7])] "u".toList (some "/c/f".toList)
        ".data".toList false (some "h".toList) "sha256".toList).transfers = [] := by
  have h := C6_hash_mismatch_manual_delete (fun _ _ => "x".toList) (fun _ => [9])
    "/c".toList [("/c/f".toList, Inode.file [7])] "u".toList (some "/c/f".toList)
    ".data".toList false "h".toList "sha256".toList "/c".toList "f".toList
    "/c/f".toList _ (by decide) (Or.inl rfl) (by decide) rfl
  have hcase := h.2.2.1 [7] rfl (by decide) (by decide)
  have habs : pyAbspath "/c".toList "/c/f".toList = "/c/f".toList := by decide
  rw [habs] at hcase
  exact ⟨hcase.1, hcase.2.2⟩

/-- C8: `get_asset_local_path` returns an existing filesystem entry
unchanged with no download and no lock acquisition; a non-existing
`asset_path` is delegated to `download_from_url` with the fixed cache root
directory, whose outcome (including the returned local path) is passed
through. -/
theorem C8_get_asset_local_path (hashFn : PyStr → List Nat → PyStr)
    (dlContent : PyStr → List Nat) (cwd torch_home : PyStr) (fs : FS)
    (asset_path : PyStr) (overwrite : Bool) :
    (fsExists fs asset_path = true →
      get_asset_local_path hashFn dlContent cwd torch_home fs asset_path overwrite =
        ⟨fs, [], [], [], 0, Except.ok asset_path⟩) ∧
    (fsExists fs asset_path = false →
      get_asset_local_path hashFn dlContent cwd torch_home fs asset_path overwrite =
        download_from_url hashFn dlContent cwd fs asset_path none
          (_CACHE_DIR torch_home) overwrite none "sha256".toList) := by
  constructor
  · intro h
    unfold get_asset_local_path
    rw [if_pos h]
  · intro h
    unfold get_asset_local_path
    rw [if_neg]
    rw [h]
    exact Bool.false_ne_true

theorem C8_get_asset_local_path_witness :
    get_asset_local_path (fun _ _ => []) (fun _ => [9]) "/c".toList "/th".toList
        [("a".toList, Inode.file [1])] "a".toList false =
      ⟨[("a".toList, Inode.file [1])], [], [], [], 0, Except.ok "a".toList⟩ :=
  (C8_get_asset_local_path (fun _ _ => []) (fun _ => [9]) "/c".toList "/th".toList
    [("a".toList, Inode.file [1])] "a".toList false).1 (by decide)

/-- C10: once a call to `start_inference_mode` has initialised the global
stack, every further call (with any `device` argument) leaves the state
unchanged and enters no new context, and `reset_inference_mode` clears the
stack back to `None`. -/
theorem C10_inference_mode_idempotent (d d2 : PyStr) (s : StackState) :
    start_inference_mode d2 (start_inference_mode d s) = start_inference_mode d s ∧
    reset_inference_mode (start_inference_mode d s) = Except.ok none ∧
    start_inference_mode d none = some [Ctx.inferenceMode] := by
  cases s <;> simp [start_inference_mode, reset_inference_mode]

end Maws
